import Mathlib

/-
Verification of the post resource handler (service/routers/post.py): a CRUD
REST resource over a relational store of posts, with ownership-based
authorization.  The store is embedded as a list of rows; each handler is a
pure function from the store (plus the request data and the authenticated
caller identity) to a result together with the successor store.
-/

namespace TryFastapi

/-- The Post entity.  Modelled from the spec: the ORM model `models.Post` is
not under src/; the spec (§3 DATA MODEL) gives its fields: `id` (unique
identifier, assigned at creation), `owner_id` (identifier of the creating
user), `title`, `content`, `created_at` (timestamp set at creation).  UUIDs
and timestamps are embedded as naturals. -/
structure Post where
  id : Nat
  owner_id : Nat
  title : String
  content : String
  created_at : Nat
deriving DecidableEq

/-- The relational table of posts, embedded as the list of its rows. -/
abbrev DB := List Post

/-- Request body for create and update.  Modelled from the spec: the schema
`schemas.post.PostCreate` is not under src/; the spec (§4.1) gives the
create input as "title, content" and the update input as "new title/content",
both required (full replacement, §9). -/
structure PostCreate where
  title : String
  content : String
deriving DecidableEq

/-- Errors raised by the handlers: `Exception404NoId` (HTTP 404) and
`exceptions.Exception403` (HTTP 403).  The detail message strings are not
modelled; only the identity of the exception matters here. -/
inductive ApiError where
  | notFound (uuid : Nat)
  | forbidden
deriving DecidableEq

/-- HTTP status code of each error. -/
def ApiError.status : ApiError → Nat
  | .notFound _ => 404
  | .forbidden => 403

/-- Whether `needle` occurs as a contiguous leading block of `hay`
(char-list version of string prefix, by decidable equality). -/
def leadsWith : List Char → List Char → Bool
  | [], _ => true
  | _ :: _, [] => false
  | a :: as, b :: bs => a == b && leadsWith as bs

/-- Whether `needle` occurs as a contiguous block anywhere in `hay`. -/
def containsSub (needle : List Char) : List Char → Bool
  | [] => needle.isEmpty
  | c :: t => leadsWith needle (c :: t) || containsSub needle t

/-- Case-fold a string to its list of lowercase characters (SQL ilike
compares case-insensitively). -/
def lowercase (s : String) : List Char := s.toList.map Char.toLower

/-- All suffixes of a character list, the list itself and [] included. -/
def tails : List Char → List (List Char)
  | [] => [[]]
  | c :: t => (c :: t) :: tails t

/-- SQL LIKE pattern matching over case-folded characters: in the pattern,
`%` matches any sequence of characters, `_` matches exactly one character,
and every other character matches itself. -/
def likeMatch : List Char → List Char → Bool
  | [], s => s.isEmpty
  | c :: ps, s =>
    if c = '%' then (tails s).any (fun t => likeMatch ps t)
    else
      match s with
      | [] => false
      | d :: t => (c == '_' || c == d) && likeMatch ps t

/-- SQL `ilike(f"%{needle}%")` exactly as the source builds it: the needle
is interpolated into the pattern unescaped, so `%` and `_` inside the
needle stay live LIKE wildcards; matching is case-insensitive. -/
def ilikeContains (haystack needle : String) : Bool :=
  likeMatch ('%' :: (lowercase needle ++ ['%'])) (lowercase haystack)

/-- The row filter built by get_posts when a search string is applied:
`Post.title.ilike(%search%) | Post.content.ilike(%search%)`. -/
def matchesSearch (s : String) (p : Post) : Bool :=
  ilikeContains p.title s || ilikeContains p.content s

/-- The filter as the spec words it: the title or content contains the
search text as a case-insensitive literal substring (no wildcards). -/
def substrCI (haystack needle : String) : Bool :=
  containsSub (lowercase needle) (lowercase haystack)

/-- Row filter per the spec wording: title OR content contains the search
text as a case-insensitive substring. -/
def matchesSearchSpec (s : String) (p : Post) : Bool :=
  substrCI p.title s || substrCI p.content s

/-- Insert a row into a list that is already ordered by created_at,
keeping the order (helper for the ORDER BY embedding). -/
def insertByCreated (p : Post) : List Post → List Post
  | [] => [p]
  | q :: t =>
    if q.created_at ≤ p.created_at then q :: insertByCreated p t
    else p :: q :: t

/-- SQL `ORDER BY created_at` (ascending, stable): sort the rows by
created_at. -/
def orderByCreatedAt : List Post → List Post
  | [] => []
  | p :: t => insertByCreated p (orderByCreatedAt t)

/-- Default of the `limit` query parameter of get_posts. -/
def posts_default_limit : Nat := 10

/-- Default of the `offset` query parameter of get_posts. -/
def posts_default_offset : Nat := 0

/-- GET /post/all (get_posts): starting from the full table, if `search` is
truthy (present and non-empty, Python `if search:`) filter by
title-or-content ilike; then ORDER BY created_at, LIMIT `limit`,
OFFSET `offset` (SQL applies the offset before the limit). -/
def get_posts (db : DB) (limit offset : Nat) (search : Option String) : List Post :=
  let posts_query := db
  let posts_query :=
    match search with
    | none => posts_query
    | some s => if s = "" then posts_query else posts_query.filter (matchesSearch s)
  ((orderByCreatedAt posts_query).drop offset).take limit

/-- GET /post/{post_uuid} (get_post): fetch by primary key
(`db.query(models.Post).get(post_uuid)`); 404 if absent, else the post. -/
def get_post (db : DB) (post_uuid : Nat) : Except ApiError Post :=
  match db.find? (fun p => p.id == post_uuid) with
  | none => .error (.notFound post_uuid)
  | some post => .ok post

/-- POST /post/ (create_post): insert a new row with `owner_id` set to the
caller identity and title/content from the body; the identifier and the
creation timestamp are assigned by the store, passed here as `fresh_id` and
`now`.  Returns the HTTP status (201) with the created post, and the
successor store. -/
def create_post (db : DB) (new_post : PostCreate) (user_id fresh_id now : Nat) :
    (Nat × Post) × DB :=
  let new_db_post : Post :=
    { id := fresh_id, owner_id := user_id,
      title := new_post.title, content := new_post.content, created_at := now }
  ((201, new_db_post), db ++ [new_db_post])

/-- DELETE /post/{post_uuid} (delete_post): fetch by primary key; 404 if
absent; 403 if the caller is not the owner; otherwise remove the row and
return HTTP status 204.  The successor store is returned alongside. -/
def delete_post (db : DB) (post_uuid user_id : Nat) : Except ApiError Nat × DB :=
  match db.find? (fun p => p.id == post_uuid) with
  | none => (.error (.notFound post_uuid), db)
  | some to_be_deleted =>
    if to_be_deleted.owner_id = user_id then
      (.ok 204, db.eraseP (fun p => p.id == post_uuid))
    else
      (.error .forbidden, db)

/-- Overwrite the title and content of a row with the values of the update
body (`to_be_updated_query.update(argvals)` on one row). -/
def applyUpdate (body : PostCreate) (q : Post) : Post :=
  { q with title := body.title, content := body.content }

/-- PUT /post/{post_uuid} (update_post): select the rows whose id equals
`post_uuid` and take the first; 404 if none; 403 if the caller is not the
owner; otherwise overwrite title and content on every selected row and
return the refreshed first row.  The successor store is returned
alongside. -/
def update_post (db : DB) (post_uuid : Nat) (updated_post : PostCreate)
    (user_id : Nat) : Except ApiError Post × DB :=
  match db.find? (fun p => p.id == post_uuid) with
  | none => (.error (.notFound post_uuid), db)
  | some to_be_updated =>
    if to_be_updated.owner_id = user_id then
      (.ok (applyUpdate updated_post to_be_updated),
       db.map (fun q => if q.id = post_uuid then applyUpdate updated_post q else q))
    else
      (.error .forbidden, db)

/-- The list operation as the spec words it: exactly the posts whose title
or content contains the search text as a case-insensitive substring,
ordered by creation time ascending, with limit/offset pagination applied
after the filtering. -/
def listPerSpec (db : DB) (limit offset : Nat) (s : String) : List Post :=
  ((orderByCreatedAt (db.filter (matchesSearchSpec s))).drop offset).take limit

/-- The list operation with the filter as the program executes it: ILIKE
pattern %search% (wildcards in the search text live), then order by
creation time, then paginate. -/
def listPerIlike (db : DB) (limit offset : Nat) (s : String) : List Post :=
  ((orderByCreatedAt (db.filter (matchesSearch s))).drop offset).take limit

/-- Rows ordered by ascending creation time. -/
def createdLE (a b : Post) : Prop := a.created_at ≤ b.created_at

/- ## Helper lemmas -/

theorem containsSub_nil (hay : List Char) : containsSub [] hay = true := by
  cases hay <;> simp [containsSub, leadsWith, List.isEmpty]

theorem leadsWith_nil (lit : List Char) : leadsWith lit [] = lit.isEmpty := by
  cases lit <;> rfl

theorem nil_mem_tails (s : List Char) : [] ∈ tails s := by
  induction s with
  | nil => simp [tails]
  | cons c t ih => simp [tails, ih]

theorem likeMatch_append_percent (lit : List Char) (hp : '%' ∉ lit) (hu : '_' ∉ lit) :
    ∀ s, likeMatch (lit ++ ['%']) s = leadsWith lit s := by
  induction lit with
  | nil =>
    intro s
    have h1 : likeMatch ([] ++ ['%']) s = (tails s).any (fun t => likeMatch [] t) := by
      simp [likeMatch]
    have h2 : (tails s).any (fun t => likeMatch [] t) = true :=
      List.any_eq_true.mpr ⟨[], nil_mem_tails s, rfl⟩
    rw [h1, h2]
    rfl
  | cons c cs ih =>
    have hc1 : c ≠ '%' := fun h => hp (h ▸ List.mem_cons_self c cs)
    have hc2 : c ≠ '_' := fun h => hu (h ▸ List.mem_cons_self c cs)
    have hb : (c == '_') = false := by simpa using hc2
    have ih2 := ih (fun h => hp (List.mem_cons_of_mem c h))
      (fun h => hu (List.mem_cons_of_mem c h))
    intro s
    cases s with
    | nil =>
      rw [List.cons_append]
      simp [likeMatch, if_neg hc1, leadsWith]
    | cons d t =>
      rw [List.cons_append]
      simp [likeMatch, if_neg hc1, leadsWith, ih2, hb]

theorem any_tails_leadsWith (lit : List Char) :
    ∀ s, (tails s).any (fun t => leadsWith lit t) = containsSub lit s := by
  intro s
  induction s with
  | nil => simp [tails, containsSub, leadsWith_nil]
  | cons c t ih => simp [tails, List.any_cons, containsSub, ih]

theorem ilike_eq_substr (lit : List Char) (hp : '%' ∉ lit) (hu : '_' ∉ lit)
    (s : List Char) :
    likeMatch ('%' :: (lit ++ ['%'])) s = containsSub lit s := by
  have h1 : likeMatch ('%' :: (lit ++ ['%'])) s =
      (tails s).any (fun t => likeMatch (lit ++ ['%']) t) := by
    simp [likeMatch]
  rw [h1]
  simp only [likeMatch_append_percent lit hp hu]
  exact any_tails_leadsWith lit s

theorem ilikeContains_empty (h : String) : ilikeContains h "" = true := by
  have e : lowercase "" = [] := rfl
  unfold ilikeContains
  rw [e, ilike_eq_substr [] (by simp) (by simp)]
  exact containsSub_nil _

theorem matchesSearch_empty (p : Post) : matchesSearch "" p = true := by
  simp [matchesSearch, ilikeContains_empty]

theorem mem_insertByCreated (p x : Post) (l : List Post) :
    x ∈ insertByCreated p l ↔ x = p ∨ x ∈ l := by
  induction l with
  | nil => simp [insertByCreated]
  | cons q t ih =>
    rw [insertByCreated]
    by_cases hc : q.created_at ≤ p.created_at
    · rw [if_pos hc]
      simp only [List.mem_cons, ih]
      tauto
    · rw [if_neg hc]
      simp only [List.mem_cons]

theorem pairwise_insertByCreated (p : Post) (l : List Post)
    (h : l.Pairwise createdLE) : (insertByCreated p l).Pairwise createdLE := by
  induction l with
  | nil => simp [insertByCreated, createdLE]
  | cons q t ih =>
    rw [List.pairwise_cons] at h
    rw [insertByCreated]
    by_cases hc : q.created_at ≤ p.created_at
    · rw [if_pos hc]
      rw [List.pairwise_cons]
      refine ⟨?_, ih h.2⟩
      intro x hx
      rcases (mem_insertByCreated p x t).mp hx with rfl | hxt
      · exact hc
      · exact h.1 x hxt
    · rw [if_neg hc]
      rw [List.pairwise_cons]
      refine ⟨?_, List.pairwise_cons.mpr h⟩
      intro x hx
      have hpq : p.created_at ≤ q.created_at := Nat.le_of_lt (Nat.lt_of_not_le hc)
      rcases List.mem_cons.mp hx with rfl | hxt
      · exact hpq
      · exact Nat.le_trans hpq (h.1 x hxt)

theorem mem_orderByCreatedAt (x : Post) (l : List Post) :
    x ∈ orderByCreatedAt l ↔ x ∈ l := by
  induction l with
  | nil => simp [orderByCreatedAt]
  | cons p t ih =>
    rw [orderByCreatedAt]
    simp only [mem_insertByCreated, ih, List.mem_cons]

theorem pairwise_orderByCreatedAt (l : List Post) :
    (orderByCreatedAt l).Pairwise createdLE := by
  induction l with
  | nil => simp [orderByCreatedAt]
  | cons p t ih =>
    rw [orderByCreatedAt]
    exact pairwise_insertByCreated p _ ih

theorem find?_id_eq_none (db : DB) (uuid : Nat) (h : ∀ p ∈ db, p.id ≠ uuid) :
    db.find? (fun p => p.id == uuid) = none := by
  rw [List.find?_eq_none]
  intro p hp
  simpa using h p hp

theorem find?_id_eq_some (db : DB) (p : Post) (uuid : Nat)
    (hnd : (db.map Post.id).Nodup) (hmem : p ∈ db) (hid : p.id = uuid) :
    db.find? (fun q => q.id == uuid) = some p := by
  induction db with
  | nil => cases hmem
  | cons q t ih =>
    have hnd2 : (∀ x ∈ t, ¬x.id = q.id) ∧ (t.map Post.id).Nodup := by
      simpa using hnd
    rcases List.mem_cons.mp hmem with rfl | hmt
    · simp [List.find?_cons, hid]
    · have hqid : (q.id == uuid) = false := by
        simp only [beq_eq_false_iff_ne, ne_eq]
        intro hq
        exact hnd2.1 p hmt (hid.trans hq.symm)
      rw [List.find?_cons, hqid]
      exact ih hnd2.2 hmt

theorem find?_id_eraseP (db : DB) (uuid : Nat)
    (hnd : (db.map Post.id).Nodup) :
    (db.eraseP (fun p => p.id == uuid)).find? (fun p => p.id == uuid) = none := by
  induction db with
  | nil => rfl
  | cons q t ih =>
    have hnd2 : (∀ x ∈ t, ¬x.id = q.id) ∧ (t.map Post.id).Nodup := by
      simpa using hnd
    rw [List.eraseP_cons]
    by_cases hq : q.id = uuid
    · rw [show (q.id == uuid) = true by simpa using hq]
      simp only [cond_true]
      apply find?_id_eq_none
      intro p hp hpid
      exact hnd2.1 p hp (hpid.trans hq.symm)
    · rw [show (q.id == uuid) = false by simpa using hq]
      simp only [cond_false]
      rw [List.find?_cons, show (q.id == uuid) = false by simpa using hq]
      exact ih hnd2.2

/- ## Claim theorems -/

/-- A concrete row used to instantiate hypotheses of the theorems below. -/
def samplePost : Post :=
  { id := 1, owner_id := 7, title := "Hello", content := "World", created_at := 5 }

/-- A row whose title matches the ILIKE pattern %a_c% without containing
"a_c" literally: the _ wildcard matches the letter b. -/
def wildPost : Post :=
  { id := 3, owner_id := 7, title := "abc", content := "xyz", created_at := 0 }

/-- C4 counterexample: with a post titled "abc" and the search string
"a_c", the program's filter `ilike(f"%{search}%")` matches (the _ in the
search text is a live LIKE wildcard and matches b), so the list operation
returns the post even though neither its title nor its content contains
"a_c" as a substring: the claim as stated is false of the program. -/
theorem get_posts_wildcard_counterexample :
    get_posts [wildPost] 10 0 (some "a_c") ≠ listPerSpec [wildPost] 10 0 "a_c"
    ∧ get_posts [wildPost] 10 0 (some "a_c") = [wildPost]
    ∧ listPerSpec [wildPost] 10 0 "a_c" = []
    ∧ matchesSearch "a_c" wildPost = true
    ∧ matchesSearchSpec "a_c" wildPost = false := by
  refine ⟨?_, ?_, ?_, ?_, ?_⟩ <;> decide

/-- C4 amended: for every store, listing with a present search string
returns exactly the posts whose title or content matches the ILIKE pattern
%search% case-insensitively — the % and _ characters of the search text
act as live SQL wildcards, since the source interpolates the text into the
pattern unescaped — ordered by creation time ascending, with limit
(default 10) and offset (default 0) pagination applied after the
filtering; whenever the case-folded search text contains no % and no _,
this coincides with the originally claimed case-insensitive substring
filter. -/
theorem get_posts_ilike_filters_sorts_paginates (db : DB) (limit offset : Nat) (s : String) :
    get_posts db limit offset (some s) = listPerIlike db limit offset s
    ∧ (get_posts db limit offset (some s)).Pairwise createdLE
    ∧ (∀ p ∈ get_posts db limit offset (some s), matchesSearch s p = true)
    ∧ (('%' ∉ lowercase s ∧ '_' ∉ lowercase s) →
        get_posts db limit offset (some s) = listPerSpec db limit offset s)
    ∧ posts_default_limit = 10 ∧ posts_default_offset = 0 := by
  have heq : get_posts db limit offset (some s) = listPerIlike db limit offset s := by
    by_cases hs : s = ""
    · subst hs
      have hfilter : db.filter (matchesSearch "") = db :=
        List.filter_eq_self.mpr (fun p _ => matchesSearch_empty p)
      simp [get_posts, listPerIlike, hfilter]
    · simp [get_posts, listPerIlike, hs]
  refine ⟨heq, ?_, ?_, ?_, rfl, rfl⟩
  · rw [heq]
    exact List.Pairwise.sublist
      ((List.take_sublist _ _).trans (List.drop_sublist _ _))
      (pairwise_orderByCreatedAt _)
  · intro p hp
    rw [heq] at hp
    have hp1 := List.mem_of_mem_drop (List.mem_of_mem_take hp)
    have hp2 := (mem_orderByCreatedAt p _).mp hp1
    exact (List.mem_filter.mp hp2).2
  · intro hno
    rw [heq]
    have h1 : ∀ h : String, ilikeContains h s = substrCI h s := by
      intro h
      unfold ilikeContains substrCI
      rw [ilike_eq_substr (lowercase s) hno.1 hno.2]
    have hfeq : db.filter (matchesSearch s) = db.filter (matchesSearchSpec s) := by
      apply List.filter_congr
      intro p _
      simp only [matchesSearch, matchesSearchSpec, h1]
    unfold listPerIlike listPerSpec
    rw [hfeq]

theorem get_posts_ilike_filters_sorts_paginates_witness :
    (get_posts [samplePost] 10 0 (some "hello") = listPerIlike [samplePost] 10 0 "hello"
      ∧ (get_posts [samplePost] 10 0 (some "hello")).Pairwise createdLE
      ∧ (∀ p ∈ get_posts [samplePost] 10 0 (some "hello"),
          matchesSearch "hello" p = true)
      ∧ (('%' ∉ lowercase "hello" ∧ '_' ∉ lowercase "hello") →
          get_posts [samplePost] 10 0 (some "hello") =
            listPerSpec [samplePost] 10 0 "hello")
      ∧ posts_default_limit = 10 ∧ posts_default_offset = 0)
    ∧ ('%' ∉ lowercase "hello" ∧ '_' ∉ lowercase "hello")
    ∧ get_posts [samplePost] 10 0 (some "hello") = listPerSpec [samplePost] 10 0 "hello" :=
  ⟨get_posts_ilike_filters_sorts_paginates [samplePost] 10 0 "hello",
   ⟨by decide, by decide⟩,
   (get_posts_ilike_filters_sorts_paginates [samplePost] 10 0 "hello").2.2.2.1
     ⟨by decide, by decide⟩⟩

/-- C10: the list operation treats an empty search string exactly like an
absent one: listing with search = "" applies no filter and returns the same
result as listing with no search parameter. -/
theorem get_posts_empty_search_eq_no_search (db : DB) (limit offset : Nat) :
    get_posts db limit offset (some "") = get_posts db limit offset none := rfl

/-- C1: for every post and every authenticated caller who is not its owner,
update and delete both fail with Forbidden (HTTP 403) and the store is
unchanged: after the non-owner delete the post is still retrievable, and
after the non-owner update the store (hence every field of the post) keeps
its prior value. -/
theorem nonowner_update_delete_forbidden (db : DB) (uuid uid : Nat)
    (body : PostCreate) (p : Post) (hnd : (db.map Post.id).Nodup)
    (hmem : p ∈ db) (hid : p.id = uuid) (hown : p.owner_id ≠ uid) :
    delete_post db uuid uid = (.error .forbidden, db)
    ∧ update_post db uuid body uid = (.error .forbidden, db)
    ∧ ApiError.forbidden.status = 403
    ∧ get_post (delete_post db uuid uid).2 uuid = .ok p
    ∧ (update_post db uuid body uid).2 = db := by
  have hf := find?_id_eq_some db p uuid hnd hmem hid
  have hdel : delete_post db uuid uid = (.error .forbidden, db) := by
    simp only [delete_post, hf, if_neg hown]
  have hup : update_post db uuid body uid = (.error .forbidden, db) := by
    simp only [update_post, hf, if_neg hown]
  refine ⟨hdel, hup, rfl, ?_, by rw [hup]⟩
  rw [hdel]
  simp only [get_post, hf]

theorem nonowner_update_delete_forbidden_witness :
    (([samplePost].map Post.id).Nodup ∧ samplePost ∈ [samplePost]
      ∧ samplePost.id = 1 ∧ samplePost.owner_id ≠ 2)
    ∧ (delete_post [samplePost] 1 2 = (.error .forbidden, [samplePost])
      ∧ update_post [samplePost] 1 ⟨"x", "y"⟩ 2 = (.error .forbidden, [samplePost])
      ∧ ApiError.forbidden.status = 403
      ∧ get_post (delete_post [samplePost] 1 2).2 1 = .ok samplePost
      ∧ (update_post [samplePost] 1 ⟨"x", "y"⟩ 2).2 = [samplePost]) :=
  ⟨⟨by simp, by simp, rfl, by decide⟩,
   nonowner_update_delete_forbidden [samplePost] 1 2 ⟨"x", "y"⟩ samplePost
     (by simp) (by simp) rfl (by decide)⟩

/-- C3: get-by-id fails with NotFound (HTTP 404) exactly when no post with
the given identifier exists, and otherwise returns that post; after a
successful delete (in particular one by the owner) a get-by-id on the same
identifier returns 404. -/
theorem get_post_iff_and_delete_removes (db : DB) (uuid uid : Nat)
    (hnd : (db.map Post.id).Nodup) :
    (get_post db uuid = .error (.notFound uuid) ↔ ∀ p ∈ db, p.id ≠ uuid)
    ∧ (∀ p ∈ db, p.id = uuid → get_post db uuid = .ok p)
    ∧ (ApiError.notFound uuid).status = 404
    ∧ (∀ r db2, delete_post db uuid uid = (.ok r, db2) →
        get_post db2 uuid = .error (.notFound uuid)) := by
  refine ⟨⟨?_, ?_⟩, ?_, rfl, ?_⟩
  · intro h404 p hp hpid
    cases hfind : db.find? (fun q => q.id == uuid) with
    | none => exact List.find?_eq_none.mp hfind p hp (by simpa using hpid)
    | some q =>
      simp only [get_post, hfind] at h404
      exact Except.noConfusion h404
  · intro h
    simp only [get_post, find?_id_eq_none db uuid h]
  · intro p hp hpid
    simp only [get_post, find?_id_eq_some db p uuid hnd hp hpid]
  · intro r db2 hdel
    cases hfind : db.find? (fun q => q.id == uuid) with
    | none =>
      simp only [delete_post, hfind] at hdel
      exact Except.noConfusion (congrArg Prod.fst hdel)
    | some q =>
      simp only [delete_post, hfind] at hdel
      by_cases hq : q.owner_id = uid
      · rw [if_pos hq] at hdel
        injection hdel with h1 h2
        rw [← h2]
        simp only [get_post, find?_id_eraseP db uuid hnd]
      · rw [if_neg hq] at hdel
        injection hdel with h1 h2
        exact Except.noConfusion h1

theorem get_post_iff_and_delete_removes_witness :
    ([samplePost].map Post.id).Nodup
    ∧ ((get_post [samplePost] 1 = .error (.notFound 1) ↔
          ∀ p ∈ [samplePost], p.id ≠ 1)
      ∧ (∀ p ∈ [samplePost], p.id = 1 → get_post [samplePost] 1 = .ok p)
      ∧ (ApiError.notFound 1).status = 404
      ∧ (∀ r db2, delete_post [samplePost] 1 7 = (.ok r, db2) →
          get_post db2 1 = .error (.notFound 1))) :=
  ⟨by simp, get_post_iff_and_delete_removes [samplePost] 1 7 (by simp)⟩

/-- C9: on both update and delete the existence check precedes the ownership
check: for every identifier that matches no post the operation fails with
NotFound (404) whoever the caller is, never with Forbidden (403). -/
theorem absent_id_is_404 (db : DB) (uuid uid : Nat) (body : PostCreate)
    (h : ∀ p ∈ db, p.id ≠ uuid) :
    delete_post db uuid uid = (.error (.notFound uuid), db)
    ∧ update_post db uuid body uid = (.error (.notFound uuid), db)
    ∧ (ApiError.notFound uuid).status = 404
    ∧ (delete_post db uuid uid).1 ≠ .error .forbidden
    ∧ (update_post db uuid body uid).1 ≠ .error .forbidden := by
  have hf := find?_id_eq_none db uuid h
  have h1 : delete_post db uuid uid = (.error (.notFound uuid), db) := by
    simp only [delete_post, hf]
  have h2 : update_post db uuid body uid = (.error (.notFound uuid), db) := by
    simp only [update_post, hf]
  refine ⟨h1, h2, rfl, ?_, ?_⟩
  · rw [h1]; simp
  · rw [h2]; simp

/-- A second concrete row, owned by another user, used to instantiate the
frame conditions below. -/
def otherPost : Post :=
  { id := 2, owner_id := 8, title := "Second", content := "Note", created_at := 9 }

/-- C2: a created post has owner_id equal to the identity of the
authenticated creator; update never changes any owner_id (nor any id); and
both a successful update and a successful delete require the caller to be
the owner of the targeted post, who also remains the owner of the updated
row. -/
theorem owner_id_set_at_create_never_changed
    (db : DB) (body ubody : PostCreate) (uid fid now cuid uuid duid duuid : Nat)
    (r : Post) (db2 : DB) (st : Nat) (db3 : DB)
    (hup : update_post db uuid ubody cuid = (.ok r, db2))
    (hdel : delete_post db duuid duid = (.ok st, db3)) :
    (create_post db body uid fid now).1.2.owner_id = uid
    ∧ db2.map (fun p => (p.id, p.owner_id)) = db.map (fun p => (p.id, p.owner_id))
    ∧ r.owner_id = cuid
    ∧ (∃ p ∈ db, p.id = uuid ∧ p.owner_id = cuid)
    ∧ (∃ p ∈ db, p.id = duuid ∧ p.owner_id = duid)
    ∧ (∀ q ∈ db3, q ∈ db) := by
  have hupfacts :
      db2.map (fun p => (p.id, p.owner_id)) = db.map (fun p => (p.id, p.owner_id))
      ∧ r.owner_id = cuid
      ∧ (∃ p ∈ db, p.id = uuid ∧ p.owner_id = cuid) := by
    cases hfind : db.find? (fun q => q.id == uuid) with
    | none =>
      simp only [update_post, hfind] at hup
      exact absurd (congrArg Prod.fst hup) (by simp)
    | some p =>
      by_cases hq : p.owner_id = cuid
      · simp only [update_post, hfind, if_pos hq] at hup
        have h1 : Except.ok (applyUpdate ubody p) = Except.ok r := congrArg Prod.fst hup
        have hr : applyUpdate ubody p = r := by injection h1
        have h2 : db.map (fun q => if q.id = uuid then applyUpdate ubody q else q) = db2 :=
          congrArg Prod.snd hup
        refine ⟨?_, by rw [← hr]; exact hq,
          p, List.mem_of_find?_eq_some hfind, by simpa using List.find?_some hfind, hq⟩
        rw [← h2, List.map_map]
        apply List.map_congr_left
        intro q _
        by_cases hqq : q.id = uuid
        · simp [Function.comp, hqq, applyUpdate]
        · simp [Function.comp, hqq]
      · simp only [update_post, hfind, if_neg hq] at hup
        exact absurd (congrArg Prod.fst hup) (by simp)
  have hdelfacts :
      (∃ p ∈ db, p.id = duuid ∧ p.owner_id = duid) ∧ (∀ q ∈ db3, q ∈ db) := by
    cases hfind : db.find? (fun q => q.id == duuid) with
    | none =>
      simp only [delete_post, hfind] at hdel
      exact absurd (congrArg Prod.fst hdel) (by simp)
    | some p =>
      by_cases hq : p.owner_id = duid
      · simp only [delete_post, hfind, if_pos hq] at hdel
        injection hdel with h1 h2
        refine ⟨⟨p, List.mem_of_find?_eq_some hfind,
          by simpa using List.find?_some hfind, hq⟩, ?_⟩
        intro q hq3
        rw [← h2] at hq3
        exact (List.eraseP_sublist db).subset hq3
      · simp only [delete_post, hfind, if_neg hq] at hdel
        exact absurd (congrArg Prod.fst hdel) (by simp)
  exact ⟨rfl, hupfacts.1, hupfacts.2.1, hupfacts.2.2, hdelfacts.1, hdelfacts.2⟩

theorem owner_id_set_at_create_never_changed_witness :
    (update_post [samplePost] 1 ⟨"c", "d"⟩ 7 =
        (.ok { id := 1, owner_id := 7, title := "c", content := "d", created_at := 5 },
         [{ id := 1, owner_id := 7, title := "c", content := "d", created_at := 5 }])
      ∧ delete_post [samplePost] 1 7 = (.ok 204, []))
    ∧ ((create_post [samplePost] ⟨"t", "c"⟩ 9 2 6).1.2.owner_id = 9
      ∧ [({ id := 1, owner_id := 7, title := "c", content := "d",
            created_at := 5 } : Post)].map (fun p => (p.id, p.owner_id))
          = [samplePost].map (fun p => (p.id, p.owner_id))
      ∧ ({ id := 1, owner_id := 7, title := "c", content := "d",
           created_at := 5 } : Post).owner_id = 7
      ∧ (∃ p ∈ [samplePost], p.id = 1 ∧ p.owner_id = 7)
      ∧ (∃ p ∈ [samplePost], p.id = 1 ∧ p.owner_id = 7)
      ∧ (∀ q ∈ ([] : DB), q ∈ [samplePost])) :=
  ⟨⟨rfl, rfl⟩,
   owner_id_set_at_create_never_changed [samplePost] ⟨"t", "c"⟩ ⟨"c", "d"⟩
     9 2 6 7 1 7 1 _ _ 204 [] rfl rfl⟩

/-- C5: a successful update by the owner overwrites only title and content:
the returned row keeps the prior id, owner_id and created_at; rowwise the
store keeps every id, owner_id and created_at; every post whose id differs
from the target is in the store unchanged; and every row carrying the
target id now holds the submitted title and content. -/
theorem update_by_owner_overwrites_only_title_content
    (db : DB) (uuid uid : Nat) (body : PostCreate) (p : Post)
    (hnd : (db.map Post.id).Nodup) (hmem : p ∈ db) (hid : p.id = uuid)
    (hown : p.owner_id = uid) :
    (update_post db uuid body uid).1 =
      .ok { id := p.id, owner_id := p.owner_id, title := body.title,
            content := body.content, created_at := p.created_at }
    ∧ (update_post db uuid body uid).2.map (fun q => (q.id, q.owner_id, q.created_at))
        = db.map (fun q => (q.id, q.owner_id, q.created_at))
    ∧ (∀ q ∈ db, q.id ≠ uuid → q ∈ (update_post db uuid body uid).2)
    ∧ (∀ q ∈ (update_post db uuid body uid).2, q.id = uuid →
        q.title = body.title ∧ q.content = body.content) := by
  have hf := find?_id_eq_some db p uuid hnd hmem hid
  have hud : update_post db uuid body uid =
      (.ok (applyUpdate body p),
       db.map (fun q => if q.id = uuid then applyUpdate body q else q)) := by
    simp only [update_post, hf, if_pos hown]
  refine ⟨by rw [hud]; rfl, ?_, ?_, ?_⟩
  · rw [hud, List.map_map]
    apply List.map_congr_left
    intro q _
    by_cases hqq : q.id = uuid
    · simp [Function.comp, hqq, applyUpdate]
    · simp [Function.comp, hqq]
  · intro q hq hne
    rw [hud]
    have : (if q.id = uuid then applyUpdate body q else q) = q := if_neg hne
    rw [← this]
    exact List.mem_map_of_mem _ hq
  · intro q hq hqid
    rw [hud] at hq
    rcases List.mem_map.mp hq with ⟨x, hx, hfx⟩
    by_cases hxx : x.id = uuid
    · rw [if_pos hxx] at hfx
      rw [← hfx]
      exact ⟨rfl, rfl⟩
    · rw [if_neg hxx] at hfx
      exact absurd (hfx ▸ hqid) hxx

theorem update_by_owner_overwrites_only_title_content_witness :
    (([samplePost, otherPost].map Post.id).Nodup ∧ samplePost ∈ [samplePost, otherPost]
      ∧ samplePost.id = 1 ∧ samplePost.owner_id = 7)
    ∧ ((update_post [samplePost, otherPost] 1 ⟨"c", "d"⟩ 7).1 =
        .ok { id := samplePost.id, owner_id := samplePost.owner_id, title := "c",
              content := "d", created_at := samplePost.created_at }
      ∧ (update_post [samplePost, otherPost] 1 ⟨"c", "d"⟩ 7).2.map
            (fun q => (q.id, q.owner_id, q.created_at))
          = [samplePost, otherPost].map (fun q => (q.id, q.owner_id, q.created_at))
      ∧ (∀ q ∈ [samplePost, otherPost], q.id ≠ 1 →
          q ∈ (update_post [samplePost, otherPost] 1 ⟨"c", "d"⟩ 7).2)
      ∧ (∀ q ∈ (update_post [samplePost, otherPost] 1 ⟨"c", "d"⟩ 7).2, q.id = 1 →
          q.title = "c" ∧ q.content = "d")) :=
  ⟨⟨by simp [samplePost, otherPost], by simp, rfl, rfl⟩,
   update_by_owner_overwrites_only_title_content [samplePost, otherPost] 1 7
     ⟨"c", "d"⟩ samplePost (by simp [samplePost, otherPost]) (by simp) rfl rfl⟩

/-- C6: create returns status 201 with the created post, whose owner is the
caller and whose identifier, when fetched back with get-by-id, yields a post
carrying exactly the submitted title and content (create followed by get is
a round trip on title/content). -/
theorem create_then_get_roundtrip (db : DB) (body : PostCreate) (uid fid now : Nat)
    (hfresh : ∀ p ∈ db, p.id ≠ fid) :
    (create_post db body uid fid now).1.1 = 201
    ∧ get_post (create_post db body uid fid now).2 fid =
        .ok { id := fid, owner_id := uid, title := body.title,
              content := body.content, created_at := now }
    ∧ (∀ r, get_post (create_post db body uid fid now).2 fid = .ok r →
        r.title = body.title ∧ r.content = body.content) := by
  have hnone := find?_id_eq_none db fid hfresh
  have hfind : ((create_post db body uid fid now).2).find? (fun p => p.id == fid) =
      some { id := fid, owner_id := uid, title := body.title,
             content := body.content, created_at := now } := by
    simp only [create_post, List.find?_append, hnone, Option.none_or, List.find?_cons]
    simp
  have hget : get_post (create_post db body uid fid now).2 fid =
      .ok { id := fid, owner_id := uid, title := body.title,
            content := body.content, created_at := now } := by
    simp only [get_post, hfind]
  refine ⟨rfl, hget, ?_⟩
  intro r hr
  rw [hget] at hr
  have : { id := fid, owner_id := uid, title := body.title,
           content := body.content, created_at := now } = r := by injection hr
  rw [← this]
  exact ⟨rfl, rfl⟩

theorem create_then_get_roundtrip_witness :
    (∀ p ∈ [samplePost], p.id ≠ 42)
    ∧ ((create_post [samplePost] ⟨"T", "C"⟩ 3 42 11).1.1 = 201
      ∧ get_post (create_post [samplePost] ⟨"T", "C"⟩ 3 42 11).2 42 =
          .ok { id := 42, owner_id := 3, title := "T", content := "C", created_at := 11 }
      ∧ (∀ r, get_post (create_post [samplePost] ⟨"T", "C"⟩ 3 42 11).2 42 = .ok r →
          r.title = "T" ∧ r.content = "C")) :=
  ⟨by simp [samplePost], create_then_get_roundtrip [samplePost] ⟨"T", "C"⟩ 3 42 11
    (by simp [samplePost])⟩

/-- C8 counterexample: the update handler has full-replacement semantics, so
the stored content is not preserved across an update that does not resubmit
it.  After user 1 creates {title Hello, content World}, an owner update
whose body carries title Hi and content "" leaves content "", not the
previously stored "World". -/
theorem update_does_not_preserve_stored_content :
    get_post (update_post (create_post [] ⟨"Hello", "World"⟩ 1 100 5).2
        100 ⟨"Hi", ""⟩ 1).2 100 =
      .ok { id := 100, owner_id := 1, title := "Hi", content := "", created_at := 5 }
    ∧ ("" : String) ≠ "World" :=
  ⟨rfl, by decide⟩

/-- C8 amended: after {title Hello, content World} is created by user A, an
update by A whose (full, as the handler requires) body is
{title Hi, content World} succeeds, and a subsequent get-by-id returns
{title Hi, content World}: the title changes and the content value is kept
because it is resubmitted. -/
theorem create_update_get_scenario :
    get_post (create_post [] ⟨"Hello", "World"⟩ 1 100 5).2 100 =
      .ok { id := 100, owner_id := 1, title := "Hello", content := "World",
            created_at := 5 }
    ∧ (update_post (create_post [] ⟨"Hello", "World"⟩ 1 100 5).2
        100 ⟨"Hi", "World"⟩ 1).1 =
      .ok { id := 100, owner_id := 1, title := "Hi", content := "World",
            created_at := 5 }
    ∧ get_post (update_post (create_post [] ⟨"Hello", "World"⟩ 1 100 5).2
        100 ⟨"Hi", "World"⟩ 1).2 100 =
      .ok { id := 100, owner_id := 1, title := "Hi", content := "World",
            created_at := 5 } :=
  ⟨rfl, rfl, rfl⟩

theorem absent_id_is_404_witness :
    (∀ p ∈ ([] : DB), p.id ≠ 5)
    ∧ (delete_post [] 5 1 = (.error (.notFound 5), [])
      ∧ update_post [] 5 ⟨"a", "b"⟩ 1 = (.error (.notFound 5), [])
      ∧ (ApiError.notFound 5).status = 404
      ∧ (delete_post [] 5 1).1 ≠ .error .forbidden
      ∧ (update_post [] 5 ⟨"a", "b"⟩ 1).1 ≠ .error .forbidden) :=
  ⟨by simp, absent_id_is_404 [] 5 1 ⟨"a", "b"⟩ (by simp)⟩

end TryFastapi
